import Mathlib

/-!
A verification development for the StockPulse ingestion-and-alerting engine
(`src/ingestion.py`).  The Python source is shallowly embedded: prices and
timestamps are rationals, Python `round(x, 3)` is rounding to the nearest
multiple of 1/1000, SQLite tables are Lean lists, and the process-wide
dictionaries (previous-price cache, API-key request counts) are explicit
state.  Random draws (`random.gauss`, `random.choice`, `random.uniform`,
`random.random`) are universally quantified inputs constrained to the
support of the corresponding distribution.
-/

namespace StockPulse

/-- Python `round(x, 3)`: round to the nearest multiple of `1/1000`.
(Tie-breaking differs from CPython banker's rounding, but every property
proved below only uses `|round3 x - x| ≤ 1/2000`, which holds for both.) -/
def round3 (q : ℚ) : ℚ := (round (q * 1000) : ℤ) / 1000

/-- The hardcoded seed prices `REAL_TIME_PRICES` from `ingestion.py`. -/
def REAL_TIME_PRICES (s : String) : Option ℚ :=
  if s = "NVDA" then some (105527/1000)
  else if s = "AAPL" then some (206126/1000)
  else if s = "MSFT" then some (383774/1000)
  else if s = "GOOGL" then some (157946/1000)
  else none

/-- `base_price = result[0] if result else REAL_TIME_PRICES.get(symbol, 100.0)`
in `create_mock_data`: the last persisted price for the symbol, else the
hardcoded seed price, else 100.0. -/
def basePrice (lastPersisted : Option ℚ) (symbol : String) : ℚ :=
  lastPersisted.getD ((REAL_TIME_PRICES symbol).getD 100)

/-- One outcome of the random draws made by `create_mock_data` for one
symbol: `random.choice([-1, 1])` for the trend, the `random.gauss(0,
VOLATILITY)` perturbation, the `random.random()` roll deciding whether a
jump happens, the `random.uniform(0.01, 0.03)` jump magnitude, and the
`random.choice([-1, 1])` jump direction. -/
structure MockDraws where
  trendDir : ℤ
  gauss : ℚ
  jumpRoll : ℚ
  jumpMag : ℚ
  jumpDir : ℤ

/-- The draws lie in the support of their distributions:
`trendDir, jumpDir ∈ {-1, 1}`, `jumpRoll ∈ [0, 1)`,
`jumpMag ∈ [0.01, 0.03]` (the Gaussian draw is unconstrained). -/
def MockDraws.Valid (d : MockDraws) : Prop :=
  (d.trendDir = 1 ∨ d.trendDir = -1) ∧
  0 ≤ d.jumpRoll ∧ d.jumpRoll < 1 ∧
  1/100 ≤ d.jumpMag ∧ d.jumpMag ≤ 3/100 ∧
  (d.jumpDir = 1 ∨ d.jumpDir = -1)

instance (d : MockDraws) : Decidable d.Valid := by
  unfold MockDraws.Valid; infer_instance

/-- The price computed by `create_mock_data` for one symbol
(`ingestion.py` lines 246-253): gaussian change plus trend drift
(`TREND_STRENGTH = 0.0005`), rounded; floored at half the base price;
then, with probability 0.1, a signed jump of 1-3% of the base price is
added and the result rounded again. -/
def mockPrice (d : MockDraws) (base_price : ℚ) : ℚ :=
  let change := d.gauss + (1/2000) * (d.trendDir : ℚ)
  let price_change := base_price * change
  let new_price := round3 (base_price + price_change)
  let floored := max new_price (base_price * (1/2))
  if d.jumpRoll < 1/10 then
    round3 (floored + (d.jumpMag * base_price) * (d.jumpDir : ℚ))
  else
    floored

/-- `API_REQUESTS_PER_MINUTE` from `ingestion.py`. -/
def API_REQUESTS_PER_MINUTE : ℕ := 8

/-- The process-wide rate-limiter state of `ingestion.py`:
`API_KEY_REQUEST_COUNTS` (a count per API key) and `LAST_RESET_TIME`
(seconds, as a rational). -/
structure RateLimiterState where
  counts : String → ℕ
  lastResetTime : ℚ

/-- The window reset at the top of `fetch_stock_data` (lines 181-185): when
at least 60 seconds have elapsed since the last reset, every per-credential
count drops to 0 and the window restarts at the current time. -/
def windowReset (st : RateLimiterState) (now : ℚ) : RateLimiterState :=
  if 60 ≤ now - st.lastResetTime then { counts := fun _ => 0, lastResetTime := now } else st

/-- One per-symbol credential acquisition in `fetch_stock_data` (lines
192-200): increment the current key's count; if the incremented count
exceeds the budget, sleep 60 seconds (surfaced here as the Boolean
`blocked` component), reset every count, restart the window at the
post-sleep time `now`, and charge the current key with 1. -/
def acquireKey (st : RateLimiterState) (key : String) (now : ℚ) : Bool × RateLimiterState :=
  let c := st.counts key + 1
  if API_REQUESTS_PER_MINUTE < c then
    (true, { counts := fun k => if k = key then 1 else 0, lastResetTime := now })
  else
    (false, { st with counts := fun k => if k = key then c else st.counts k })

/-- `n` successive acquisitions on the same key within one window:
returns how many of them blocked, and the final state. -/
def acquireRepeat (st : RateLimiterState) (key : String) (now : ℚ) : ℕ → ℕ × RateLimiterState
  | 0 => (0, st)
  | n + 1 =>
      let r := acquireKey st key now
      let rest := acquireRepeat r.2 key now n
      ((if r.1 then 1 else 0) + rest.1, rest.2)

/-- An entry of the metadata JSON written next to the FAISS index. -/
structure MetaEntry where
  symbol : String
  text : String

/-- The persisted FAISS state: the index file (one stored vector per
encoded text, each represented by the text it was encoded from) and the
parallel metadata file. -/
structure FaissState where
  index : List String
  metadata : List MetaEntry

/-- `update_faiss_index(data, metadata)` (`ingestion.py` lines 120-130):
builds a brand-new `IndexFlatL2`, adds the embeddings of exactly the texts
of the passed batch, and overwrites both the index file and the metadata
file with them.  The previously persisted state is never read. -/
def update_faiss_index (data : List String) (metadata : List MetaEntry)
    (_old : FaissState) : FaissState :=
  { index := data, metadata := metadata }

/-- The timestamp used to seed synthetic data by the market-closed branch
of `StockDataConnector.run` (lines 360-366): the maximum persisted
`datetime` if one exists, else `datetime.datetime.now()`, plus one minute
(times measured in minutes). -/
def nextSyntheticTime (maxDt : Option ℚ) (now : ℚ) : ℚ := maxDt.getD now + 1

/-- Observable outcome of one `StockDataConnector.run` loop iteration. -/
structure TickResult where
  usedSynthetic : Bool
  basisTime : Option ℚ
  rateState : RateLimiterState

/-- One iteration of `StockDataConnector.run` (lines 355-367),
parameterized by `fetcher`, the effect of `fetch_stock_data` on the
rate-limiter state.  When the market is closed the loop queries the last
persisted timestamp and calls `create_mock_data` directly with the
advanced synthetic clock; the fetcher never runs and the rate-limiter
state is untouched. -/
def connectorTick (fetcher : RateLimiterState → RateLimiterState)
    (marketOpen : Bool) (st : RateLimiterState) (maxDt : Option ℚ) (now : ℚ) : TickResult :=
  if marketOpen then
    { usedSynthetic := false, basisTime := none, rateState := fetcher st }
  else
    { usedSynthetic := true, basisTime := some (nextSyntheticTime maxDt now), rateState := st }

/-- Modelled from the spec sentence for C9: basis = "last persisted
timestamp + 1 minute, or now if no history"; kept separate from
`nextSyntheticTime` (the source's computation) for comparison. -/
def claimBasisTime (maxDt : Option ℚ) (now : ℚ) : ℚ :=
  match maxDt with
  | some t => t + 1
  | none => now

/-- A row of the `alerts` table (`init_db`, lines 72-86). -/
structure AlertRule where
  id : ℕ
  symbol : String
  alert_type : String
  low : Option ℚ
  high : Option ℚ
  range_low : Option ℚ
  range_high : Option ℚ
  trend_condition : Option String
  percent : Option ℚ
  reference_price : Option ℚ
  status : String
deriving DecidableEq

/-- A row of the `alert_history` table; the free-text `message` and the
wall-clock `trigger_time` are not modelled. -/
structure HistoryRow where
  alert_id : ℕ
  symbol : String
deriving DecidableEq

/-- The alert-related persisted state. -/
structure AlertDB where
  alerts : List AlertRule
  history : List HistoryRow
deriving DecidableEq

/-- `create_alert` (lines 332-344): inserts a row with status `'active'`
(`id` stands for the AUTOINCREMENT key chosen by SQLite). -/
def create_alert (symbol alert_type : String) (low high range_low range_high : Option ℚ)
    (trend_condition : Option String) (percent reference_price : Option ℚ)
    (id : ℕ) : AlertRule :=
  ⟨id, symbol, alert_type, low, high, range_low, range_high, trend_condition,
    percent, reference_price, "active"⟩

/-- Python truthiness of a nullable REAL column: `None` and `0.0` are
falsy, everything else truthy (`if low and …`, `if high and …`,
`if prev_price and …`). -/
def qTruthy : Option ℚ → Bool
  | none => false
  | some q => decide (q ≠ 0)

/-- The `high_low` branch of `monitor_alerts` (lines 299-305). -/
def evalHighLow (low high : Option ℚ) (latest : ℚ) : Bool :=
  if qTruthy low = true ∧ latest < low.getD 0 then true
  else if qTruthy high = true ∧ high.getD 0 < latest then true
  else false

/-- The `percent_change` branch of `monitor_alerts` (lines 306-310);
the branch is entered only when both `percent` and `reference_price`
are non-null. -/
def evalPercentChange (percent reference_price : Option ℚ) (latest : ℚ) : Bool :=
  match percent, reference_price with
  | some pc, some ref =>
      let change := (latest - ref) / ref * 100
      if (0 < pc ∧ pc ≤ change) ∨ (pc < 0 ∧ change ≤ pc) then true else false
  | _, _ => false

/-- The `price_change` branch of `monitor_alerts` (lines 311-316):
`prev_prices.get(symbol, latest_price)` then the 0.01% threshold, guarded
by truthiness of the previous price. -/
def evalPriceChange (prevPrice : Option ℚ) (latest : ℚ) : Bool :=
  let prev := prevPrice.getD latest
  if prev ≠ 0 ∧ 1/100 ≤ |latest - prev| / prev * 100 then true else false

/-- The whole per-alert dispatch of `monitor_alerts` (lines 299-316),
given the latest price for the rule's symbol and the cached previous
price for that symbol. -/
def evalAlertRule (r : AlertRule) (latest : ℚ) (prevPrice : Option ℚ) : Bool :=
  if r.alert_type = "high_low" then evalHighLow r.low r.high latest
  else if r.alert_type = "percent_change" then
    evalPercentChange r.percent r.reference_price latest
  else if r.alert_type = "price_change" then evalPriceChange prevPrice latest
  else false

/-- Lookup in the process-wide `prev_prices` dictionary. -/
def lookupPrev (prev : List (String × ℚ)) (s : String) : Option ℚ :=
  (prev.find? (fun p => p.1 == s)).map Prod.snd

/-- `prev_prices[symbol] = latest_price` (line 326). -/
def setPrev (prev : List (String × ℚ)) (s : String) (q : ℚ) : List (String × ℚ) :=
  (s, q) :: prev.filter (fun p => !(p.1 == s))

/-- A SQL statement issued by `monitor_alerts` on its connection. -/
inductive DbCmd where
  | updateStatus (id : ℕ) (status : String)
  | insertHistory (id : ℕ) (symbol : String)
  | commit
deriving DecidableEq

/-- The statements staged by the `for alert in alerts` loop of
`monitor_alerts` (lines 289-326) over the rules its `WHERE status =
'active'` query returned, threading the `prev_prices` cache exactly as the
loop does.  `latestPrice s` is the first (most recent) price for `s` among
the recent rows; a rule whose symbol has no recent data is skipped. -/
def alertCmds (latestPrice : String → Option ℚ) :
    List AlertRule → List (String × ℚ) → List DbCmd
  | [], _ => []
  | r :: rs, prev =>
    if r.status = "active" then
      match latestPrice r.symbol with
      | none => alertCmds latestPrice rs prev
      | some lp =>
          (if evalAlertRule r lp (lookupPrev prev r.symbol) then
            [DbCmd.updateStatus r.id "triggered", DbCmd.insertHistory r.id r.symbol]
          else []) ++ alertCmds latestPrice rs (setPrev prev r.symbol lp)
    else alertCmds latestPrice rs prev

/-- The full statement trace of one `monitor_alerts` call: the loop's
staged statements followed by the single `conn.commit()` (line 327). -/
def monitorTrace (latestPrice : String → Option ℚ) (db : AlertDB)
    (prev : List (String × ℚ)) : List DbCmd :=
  alertCmds latestPrice db.alerts prev ++ [DbCmd.commit]

/-- Effect of one committed statement on the stored state. -/
def applyWrite (db : AlertDB) : DbCmd → AlertDB
  | .updateStatus i s =>
      { db with alerts := db.alerts.map (fun r => if r.id = i then { r with status := s } else r) }
  | .insertHistory i s => { db with history := db.history ++ [⟨i, s⟩] }
  | .commit => db

/-- SQLite transactional semantics for a statement trace: statements are
staged in the open transaction and become visible only when a `commit`
executes; a trace that ends (connection closed, or an exception
propagates) without committing leaves the store untouched. -/
def applyTrace (db : AlertDB) (staged : List DbCmd) : List DbCmd → AlertDB
  | [] => db
  | DbCmd.commit :: rest => applyTrace (staged.foldl applyWrite db) [] rest
  | c :: rest => applyTrace db (staged ++ [c]) rest

/-- The stored state after one complete `monitor_alerts` pass. -/
def monitorAlertsPass (latestPrice : String → Option ℚ) (db : AlertDB)
    (prev : List (String × ℚ)) : AlertDB :=
  applyTrace db [] (monitorTrace latestPrice db prev)

/-- The ids of the rules the `WHERE status = 'active'` query returns. -/
def activeIds (alerts : List AlertRule) : List ℕ :=
  (alerts.filter (fun r => decide (r.status = "active"))).map (fun r => r.id)

/-- Arithmetic mean of a window (pandas rolling mean). -/
def listMean (l : List ℚ) : ℚ := l.sum / l.length

/-- Sample variance of a window (`ddof = 1`, the pandas default); 0 below
two samples (where the standard deviation is not defined). -/
def sampleVar (l : List ℚ) : ℚ :=
  if l.length < 2 then 0
  else (l.map (fun x => (x - listMean l)^2)).sum / ((l.length : ℚ) - 1)

/-- pandas `rolling(window=5, min_periods=1).std()` on one window: the
sample standard deviation when at least two samples exist, `NaN` (here
`none`) for a single sample. -/
noncomputable def rollingStd (w : List ℚ) : Option ℝ :=
  if w.length < 2 then none else some (Real.sqrt (sampleVar w))

/-- `df['volatility'].fillna(0)` (line 142) applied to one value: the
`NaN` of a single-sample window becomes 0. -/
noncomputable def codeVolatility (w : List ℚ) : ℝ := (rollingStd w).getD 0

/-- The per-symbol rolling buffer: the last at most 4 prices of a symbol
seen so far in the batch. -/
def bufLookup (bufs : List (String × List ℚ)) (s : String) : List ℚ :=
  ((bufs.find? (fun p => p.1 == s)).map Prod.snd).getD []

/-- Replace a symbol's rolling buffer. -/
def bufSet (bufs : List (String × List ℚ)) (s : String) (l : List ℚ)
    : List (String × List ℚ) :=
  (s, l) :: bufs.filter (fun p => !(p.1 == s))

/-- `calculate_analytics` (lines 134-147): for each row of the batch, in
order, the moving average and volatility of the rolling window of at most
5 prices of that row's symbol (`window=5, min_periods=1`), ending at the
row itself; the one-sample `NaN` volatility is normalized to 0.  Output
rows are `(symbol, price, moving_avg, volatility)`. -/
noncomputable def annotateBatch :
    List (String × List ℚ) → List (String × ℚ) → List (String × ℚ × ℚ × ℝ)
  | _, [] => []
  | bufs, (s, p) :: rest =>
      let w := bufLookup bufs s ++ [p]
      (s, p, listMean w, codeVolatility w) ::
        annotateBatch (bufSet bufs s (w.drop (w.length - 4))) rest

/-- `calculate_analytics` run on a batch (initially empty buffers). -/
noncomputable def calculate_analytics (batch : List (String × ℚ)) :
    List (String × ℚ × ℚ × ℝ) :=
  annotateBatch [] batch

/-- The prices of the rows of `l` whose symbol is `s`, in order. -/
def histOf (l : List (String × ℚ)) (s : String) : List ℚ :=
  (l.filter (fun p => p.1 == s)).map Prod.snd

/-- The trailing window of the spec: the prices of the most recent (at
most) five observations of symbol `s` in the batch up to and including row
`j`. -/
def specWindow (batch : List (String × ℚ)) (j : ℕ) (s : String) : List ℚ :=
  (histOf (batch.take (j+1)) s).drop ((histOf (batch.take (j+1)) s).length - 5)

/-- Modelled from the spec sentence for C6: volatility is the sample
standard deviation of the window, treated as 0 when fewer than 2 samples
exist; kept separate from `codeVolatility` (the source's `.std()` then
`.fillna(0)`) for comparison. -/
noncomputable def specVolatility (w : List ℚ) : ℝ :=
  if w.length < 2 then 0 else Real.sqrt (sampleVar w)

/-- Whether a statement reads or writes the alert with the given id. -/
def cmdTouches (c : DbCmd) (i : ℕ) : Prop :=
  match c with
  | .updateStatus j _ => j = i
  | .insertHistory j _ => j = i
  | .commit => False

end StockPulse

namespace StockPulse

/-- Rounding to the nearest thousandth loses at most `1/2000` downward. -/
theorem round3_ge (x : ℚ) : x - 1/2000 ≤ round3 x := by
  have h := (abs_le.mp (abs_sub_round (x * 1000))).2
  rw [round3, le_div_iff₀ (by norm_num : (0:ℚ) < 1000)]
  linarith

/-- C1: the claim "the generated price is never less than 0.5 times the
basis price" fails: a feasible draw (gaussian -0.4995, downward trend,
jump event with magnitude 0.02 and downward direction) on a symbol with no
history and seed price 100 yields price 48 < 50. -/
theorem C1_counterexample :
    MockDraws.Valid ⟨-1, -999/2000, 0, 1/50, -1⟩ ∧
    mockPrice ⟨-1, -999/2000, 0, 1/50, -1⟩ (basePrice none "TSLA") <
      (1/2) * basePrice none "TSLA" := by
  have hbase : basePrice none "TSLA" = 100 := by
    simp [basePrice, REAL_TIME_PRICES]
  refine ⟨by norm_num [MockDraws.Valid], ?_⟩
  rw [hbase]
  norm_num [mockPrice, round3, round_eq]

/-- C1 amended: the 0.5×basis floor is applied before the optional jump,
so it holds whenever the jump does not fire; the jump (at most 3% of the
basis, rounded to a thousandth) can push the price below the floor, but
never below 0.47×basis − 1/2000. -/
theorem C1_amended (d : MockDraws) (base : ℚ) (hv : d.Valid) (hb : 0 ≤ base) :
    ((1/10 : ℚ) ≤ d.jumpRoll → base * (1/2) ≤ mockPrice d base) ∧
    (47/100) * base - 1/2000 ≤ mockPrice d base := by
  obtain ⟨-, -, -, hm1, hm2, hdir⟩ := hv
  have hmb0 : 0 ≤ d.jumpMag * base := mul_nonneg (by linarith) hb
  have hmb3 : d.jumpMag * base ≤ (3/100) * base := mul_le_mul_of_nonneg_right hm2 hb
  have hfl := le_max_right (round3 (base + base * (d.gauss + 1/2000 * (d.trendDir : ℚ))))
    (base * (1/2))
  simp only [mockPrice]
  constructor
  · intro hroll
    rw [if_neg (by linarith)]
    exact hfl
  · by_cases hj : d.jumpRoll < 1/10
    · rw [if_pos hj]
      have h2 := round3_ge
        (max (round3 (base + base * (d.gauss + 1/2000 * (d.trendDir : ℚ)))) (base * (1/2)) +
          d.jumpMag * base * (d.jumpDir : ℚ))
      have hd : -(d.jumpMag * base) ≤ d.jumpMag * base * (d.jumpDir : ℚ) := by
        rcases hdir with h | h <;> rw [h] <;> push_cast <;> linarith
      linarith
    · rw [if_neg hj]
      linarith

/-- Witness for `C1_amended` at a concrete draw with no jump event. -/
theorem C1_amended_witness :
    (47/100 : ℚ) * 100 - 1/2000 ≤ mockPrice ⟨1, 0, 1/2, 1/50, 1⟩ 100 :=
  (C1_amended ⟨1, 0, 1/2, 1/50, 1⟩ 100 (by norm_num [MockDraws.Valid]) (by norm_num)).2

/-- C8: the claim that after each tick the persisted index contains one
entry per indexed observation to date fails: after a second one-row batch
the index holds a single entry and the first observation's entry is gone
from both the index and the metadata store. -/
theorem C8_counterexample :
    (update_faiss_index ["t2"] [⟨"AAPL", "t2"⟩]
        (update_faiss_index ["t1"] [⟨"AAPL", "t1"⟩] ⟨[], []⟩)).index.length = 1 ∧
    "t1" ∉ (update_faiss_index ["t2"] [⟨"AAPL", "t2"⟩]
        (update_faiss_index ["t1"] [⟨"AAPL", "t1"⟩] ⟨[], []⟩)).index ∧
    (1 : ℕ) ≠ 2 := by
  refine ⟨rfl, ?_, by decide⟩
  simp [update_faiss_index]

/-- C8 amended: each call replaces the persisted index and metadata with
exactly the entries of the passed batch — a from-scratch rebuild whose
extent and cost are proportional to the batch, independent of (and
discarding) everything previously indexed. -/
theorem C8_amended (data : List String) (md : List MetaEntry) (old old2 : FaissState) :
    (update_faiss_index data md old).index.length = data.length ∧
    (update_faiss_index data md old).metadata = md ∧
    update_faiss_index data md old = update_faiss_index data md old2 := by
  exact ⟨rfl, rfl, rfl⟩

/-- C9: the claim that with no history the synthetic basis timestamp is
the current time fails: the code adds one minute in both branches, so with
an empty table and now = 0 the basis is 1, not 0. -/
theorem C9_counterexample :
    (connectorTick id false ⟨fun _ => 0, 0⟩ none 0).basisTime = some 1 ∧
    claimBasisTime none 0 = 0 ∧ (1 : ℚ) ≠ 0 := by
  refine ⟨?_, rfl, by norm_num⟩
  simp [connectorTick, nextSyntheticTime]

/-- C9 amended: on a market-closed tick the loop bypasses the fetcher and
rate limiter entirely (the result does not depend on the fetcher and the
rate state is returned unchanged) and seeds the synthetic generator with
basis = last persisted timestamp + 1 minute, or now + 1 minute when no
history exists; with history the clock strictly advances. -/
theorem C9_amended (fetcher g : RateLimiterState → RateLimiterState)
    (st : RateLimiterState) (maxDt : Option ℚ) (now : ℚ) :
    connectorTick fetcher false st maxDt now =
      { usedSynthetic := true, basisTime := some (maxDt.getD now + 1), rateState := st } ∧
    connectorTick fetcher false st maxDt now = connectorTick g false st maxDt now ∧
    (∀ t, maxDt = some t → nextSyntheticTime maxDt now = t + 1 ∧ t < nextSyntheticTime maxDt now) ∧
    (maxDt = none → nextSyntheticTime maxDt now = now + 1) := by
  refine ⟨rfl, rfl, ?_, ?_⟩
  · rintro t rfl
    exact ⟨rfl, by simp [nextSyntheticTime]⟩
  · rintro rfl
    rfl

/-- Under-budget acquisitions never block and simply accumulate on the
key's counter. -/
theorem acquireRepeat_no_block (key : String) (now : ℚ) :
    ∀ (n : ℕ) (st : RateLimiterState), st.counts key + n ≤ API_REQUESTS_PER_MINUTE →
      (acquireRepeat st key now n).1 = 0 ∧
      (acquireRepeat st key now n).2.counts key = st.counts key + n
  | 0, st, _ => by simp [acquireRepeat]
  | n + 1, st, h => by
      have hc : ¬ (API_REQUESTS_PER_MINUTE < st.counts key + 1) := by
        simp only [API_REQUESTS_PER_MINUTE] at h ⊢
        omega
      have ih := acquireRepeat_no_block key now n
        { st with counts := fun k => if k = key then st.counts key + 1 else st.counts k }
        (by simpa using by simp only [API_REQUESTS_PER_MINUTE] at h ⊢; omega)
      simp only [acquireRepeat, acquireKey, hc, if_false, if_neg hc]
      refine ⟨by simpa using ih.1, ?_⟩
      have h2 := ih.2
      simp only [if_pos rfl] at h2
      simpa [h2] using by omega

/-- C7: (a) the entry check of `fetch_stock_data` resets all counts once
60 seconds have elapsed since the last reset; (b) an acquisition on a key
whose count has reached the budget blocks, resets every counter and leaves
the current key charged with exactly 1; (c) starting from a zero counter,
8 acquisitions on a key never block and leave its counter at 8, and the
9th blocks and leaves the counter at exactly 1. -/
theorem C7_rate_limiter :
    (∀ (st : RateLimiterState) (now : ℚ), 60 ≤ now - st.lastResetTime →
        windowReset st now = { counts := fun _ => 0, lastResetTime := now }) ∧
    (∀ (st : RateLimiterState) (key : String) (now : ℚ),
        API_REQUESTS_PER_MINUTE ≤ st.counts key →
        (acquireKey st key now).1 = true ∧
        (acquireKey st key now).2.counts key = 1 ∧
        ∀ k, k ≠ key → (acquireKey st key now).2.counts k = 0) ∧
    (∀ (st : RateLimiterState) (key : String) (now : ℚ), st.counts key = 0 →
        (acquireRepeat st key now 8).1 = 0 ∧
        (acquireRepeat st key now 8).2.counts key = 8 ∧
        (acquireKey (acquireRepeat st key now 8).2 key now).1 = true ∧
        (acquireKey (acquireRepeat st key now 8).2 key now).2.counts key = 1) := by
  refine ⟨?_, ?_, ?_⟩
  · intro st now h
    simp [windowReset, h]
  · intro st key now h
    have hc : API_REQUESTS_PER_MINUTE < st.counts key + 1 := by omega
    refine ⟨?_, ?_, ?_⟩
    · simp [acquireKey, hc]
    · simp [acquireKey, hc]
    · intro k hk
      simp [acquireKey, hc, hk]
  · intro st key now h
    have hrep := acquireRepeat_no_block key now 8 st (by simp [API_REQUESTS_PER_MINUTE, h])
    have hcount : (acquireRepeat st key now 8).2.counts key = 8 := by
      rw [hrep.2, h]
    have hc : API_REQUESTS_PER_MINUTE < (acquireRepeat st key now 8).2.counts key + 1 := by
      rw [hcount]; simp [API_REQUESTS_PER_MINUTE]
    refine ⟨hrep.1, hcount, ?_, ?_⟩
    · simp [acquireKey, hc]
    · simp [acquireKey, hc]

/-- Witness for `C7_rate_limiter`: the 8-then-block scenario run from the
all-zero initial state on a concrete key. -/
theorem C7_rate_limiter_witness :
    (acquireRepeat ⟨fun _ => 0, 0⟩ "key1" 0 8).1 = 0 ∧
    (acquireRepeat ⟨fun _ => 0, 0⟩ "key1" 0 8).2.counts "key1" = 8 ∧
    (acquireKey (acquireRepeat ⟨fun _ => 0, 0⟩ "key1" 0 8).2 "key1" 0).1 = true ∧
    (acquireKey (acquireRepeat ⟨fun _ => 0, 0⟩ "key1" 0 8).2 "key1" 0).2.counts "key1" = 1 :=
  C7_rate_limiter.2.2 ⟨fun _ => 0, 0⟩ "key1" 0 rfl

/-- Witness for `C9_amended` with history present at timestamp 5. -/
theorem C9_amended_witness :
    nextSyntheticTime (some 5) 0 = 5 + 1 ∧ (5 : ℚ) < nextSyntheticTime (some 5) 0 :=
  (C9_amended id id ⟨fun _ => 0, 0⟩ (some 5) 0).2.2.1 5 rfl

/-- Modelled from the spec sentence for C3: "triggers if latest_price <
low (when low set) or latest_price > high (when high set)"; kept separate
from `evalHighLow` (the source's computation) for comparison. -/
def highLowClaimTrigger (low high : Option ℚ) (latest : ℚ) : Prop :=
  (∃ l, low = some l ∧ latest < l) ∨ (∃ h, high = some h ∧ h < latest)

/-- The exact trigger condition of the `high_low` branch: the bound must
be set *and non-zero* (Python falsiness of `0.0`). -/
theorem evalHighLow_iff (low high : Option ℚ) (latest : ℚ) :
    evalHighLow low high latest = true ↔
      ((∃ l, low = some l ∧ l ≠ 0 ∧ latest < l) ∨
       (∃ h, high = some h ∧ h ≠ 0 ∧ h < latest)) := by
  cases low <;> cases high <;> simp [evalHighLow, qTruthy]

/-- C3: the claimed trigger condition "latest < low when low is set, or
latest > high when high is set" fails on a rule whose `high` is the set
value `0`: Python's `if high and …` treats `0.0` as unset, so the rule
does not trigger at latest price 1 although 1 > 0. -/
theorem C3_counterexample :
    evalAlertRule ⟨1, "NVDA", "high_low", none, some 0, none, none, none, none, none,
      "active"⟩ 1 none = false ∧
    highLowClaimTrigger none (some 0) 1 := by
  constructor
  · rw [show evalAlertRule ⟨1, "NVDA", "high_low", none, some 0, none, none, none, none,
      none, "active"⟩ 1 none = evalHighLow none (some 0) 1 from rfl]
    simp [evalHighLow, qTruthy]
  · exact Or.inr ⟨0, rfl, by norm_num⟩

/-- C3 amended: a `high_low` rule triggers exactly when latest < low with
low set and non-zero, or latest > high with high set and non-zero; the
particular rule with low=90, high=110 triggers exactly below 90 or above
110. -/
theorem C3_amended :
    (∀ (r : AlertRule) (latest : ℚ) (prev : Option ℚ), r.alert_type = "high_low" →
      (evalAlertRule r latest prev = true ↔
        ((∃ l, r.low = some l ∧ l ≠ 0 ∧ latest < l) ∨
         (∃ h, r.high = some h ∧ h ≠ 0 ∧ h < latest)))) ∧
    (∀ (latest : ℚ) (prev : Option ℚ),
      evalAlertRule ⟨1, "NVDA", "high_low", some 90, some 110, none, none, none, none,
        none, "active"⟩ latest prev = true ↔ (latest < 90 ∨ 110 < latest)) := by
  constructor
  · intro r latest prev ht
    rw [show evalAlertRule r latest prev = evalHighLow r.low r.high latest from by
      simp [evalAlertRule, ht]]
    exact evalHighLow_iff r.low r.high latest
  · intro latest prev
    rw [show evalAlertRule ⟨1, "NVDA", "high_low", some 90, some 110, none, none, none,
      none, none, "active"⟩ latest prev = evalHighLow (some 90) (some 110) latest from rfl]
    rw [evalHighLow_iff]
    norm_num

/-- Witness for `C3_amended`, discharging its kind hypothesis on a
concrete `high_low` rule. -/
theorem C3_amended_witness :
    evalAlertRule ⟨7, "MSFT", "high_low", some 50, none, none, none, none, none, none,
      "active"⟩ 40 none = true ↔
      ((∃ l, (some (50:ℚ)) = some l ∧ l ≠ 0 ∧ (40:ℚ) < l) ∨
       (∃ h, (none : Option ℚ) = some h ∧ h ≠ 0 ∧ h < (40:ℚ))) :=
  C3_amended.1 ⟨7, "MSFT", "high_low", some 50, none, none, none, none, none, none,
    "active"⟩ 40 none rfl

/-- C4: a `percent_change` rule with non-null percent and non-zero
reference price triggers exactly when the percent change from the
reference reaches the (signed) target; with reference 100 and target 2 it
triggers at 102 and not at 101.9. -/
theorem C4_percent_change :
    (∀ (r : AlertRule) (latest : ℚ) (prev : Option ℚ) (pc ref : ℚ),
      r.alert_type = "percent_change" → r.percent = some pc →
      r.reference_price = some ref → ref ≠ 0 →
      (evalAlertRule r latest prev = true ↔
        ((0 < pc ∧ pc ≤ (latest - ref) / ref * 100) ∨
         (pc < 0 ∧ (latest - ref) / ref * 100 ≤ pc)))) ∧
    evalAlertRule ⟨1, "AAPL", "percent_change", none, none, none, none, none, some 2,
      some 100, "active"⟩ 102 none = true ∧
    evalAlertRule ⟨1, "AAPL", "percent_change", none, none, none, none, none, some 2,
      some 100, "active"⟩ (1019/10) none = false := by
  refine ⟨?_, ?_, ?_⟩
  · intro r latest prev pc ref ht hp hr _
    simp [evalAlertRule, ht, hp, hr, evalPercentChange]
  · rw [show evalAlertRule ⟨1, "AAPL", "percent_change", none, none, none, none, none,
      some 2, some 100, "active"⟩ 102 none =
      evalPercentChange (some 2) (some 100) 102 from rfl]
    norm_num [evalPercentChange]
  · rw [show evalAlertRule ⟨1, "AAPL", "percent_change", none, none, none, none, none,
      some 2, some 100, "active"⟩ (1019/10) none =
      evalPercentChange (some 2) (some 100) (1019/10) from rfl]
    norm_num [evalPercentChange]

/-- Witness for `C4_percent_change`, discharging its hypotheses on the
rule with reference 100 and target 2 at latest price 102. -/
theorem C4_percent_change_witness :
    evalAlertRule ⟨1, "AAPL", "percent_change", none, none, none, none, none, some 2,
      some 100, "active"⟩ 102 none = true ↔
      ((0 < (2:ℚ) ∧ (2:ℚ) ≤ ((102:ℚ) - 100) / 100 * 100) ∨
       ((2:ℚ) < 0 ∧ ((102:ℚ) - 100) / 100 * 100 ≤ 2)) :=
  C4_percent_change.1 ⟨1, "AAPL", "percent_change", none, none, none, none, none,
    some 2, some 100, "active"⟩ 102 none 2 100 rfl rfl rfl (by norm_num)

/-- C5: a `price_change` rule triggers exactly when the absolute percent
move from the cached previous price reaches 0.01%, the previous price
defaulting to the latest price when the symbol is not cached; with an
empty cache (first evaluation) it never triggers. -/
theorem C5_price_change :
    (∀ (r : AlertRule) (latest : ℚ) (prev : Option ℚ), r.alert_type = "price_change" →
      prev.getD latest ≠ 0 →
      (evalAlertRule r latest prev = true ↔
        1/100 ≤ |latest - prev.getD latest| / prev.getD latest * 100)) ∧
    (∀ (r : AlertRule) (latest : ℚ), r.alert_type = "price_change" →
      evalAlertRule r latest (lookupPrev [] r.symbol) = false) := by
  constructor
  · intro r latest prev ht h0
    simp [evalAlertRule, ht, evalPriceChange, h0]
  · intro r latest ht
    simp [evalAlertRule, ht, evalPriceChange, lookupPrev]

/-- Active ids are monotone under consing a rule. -/
theorem activeIds_mono {i : ℕ} (r : AlertRule) (rs : List AlertRule)
    (h : i ∈ activeIds rs) : i ∈ activeIds (r :: rs) := by
  simp only [activeIds, List.mem_map, List.mem_filter] at h ⊢
  obtain ⟨a, ⟨ha, hs⟩, hid⟩ := h
  exact ⟨a, ⟨List.mem_cons_of_mem _ ha, hs⟩, hid⟩

/-- Every statement the loop stages is an `updateStatus … 'triggered'` or
an `insertHistory` for the id of one of the rules the active query
returned: only active rules are evaluated, and a trigger stages exactly
those two statements. -/
theorem alertCmds_shape (latestPrice : String → Option ℚ) :
    ∀ (alerts : List AlertRule) (prev : List (String × ℚ)) (c : DbCmd),
      c ∈ alertCmds latestPrice alerts prev →
      ∃ i, (c = DbCmd.updateStatus i "triggered" ∨ ∃ s, c = DbCmd.insertHistory i s) ∧
        i ∈ activeIds alerts
  | [], _, c, hc => by simp [alertCmds] at hc
  | r :: rs, prev, c, hc => by
      by_cases hs : r.status = "active"
      · have hact : r.id ∈ activeIds (r :: rs) := by
          simp only [activeIds, List.mem_map, List.mem_filter]
          exact ⟨r, ⟨List.mem_cons_self _ _, by simp [hs]⟩, rfl⟩
        cases hlp : latestPrice r.symbol with
        | none =>
            rw [alertCmds, if_pos hs, hlp] at hc
            obtain ⟨i, hshape, hmem⟩ := alertCmds_shape latestPrice rs prev c hc
            exact ⟨i, hshape, activeIds_mono r rs hmem⟩
        | some lp =>
            rw [alertCmds, if_pos hs, hlp] at hc
            rw [List.mem_append] at hc
            rcases hc with hc | hc
            · by_cases he : evalAlertRule r lp (lookupPrev prev r.symbol) = true
              · rw [if_pos he] at hc
                simp only [List.mem_cons, List.not_mem_nil, or_false] at hc
                rcases hc with hc | hc
                · exact ⟨r.id, Or.inl hc, hact⟩
                · exact ⟨r.id, Or.inr ⟨r.symbol, hc⟩, hact⟩
              · rw [if_neg he] at hc
                cases hc
            · obtain ⟨i, hshape, hmem⟩ :=
                alertCmds_shape latestPrice rs (setPrev prev r.symbol lp) c hc
              exact ⟨i, hshape, activeIds_mono r rs hmem⟩
      · rw [alertCmds, if_neg hs] at hc
        obtain ⟨i, hshape, hmem⟩ := alertCmds_shape latestPrice rs prev c hc
        exact ⟨i, hshape, activeIds_mono r rs hmem⟩

/-- The loop itself never commits. -/
theorem commit_not_mem_alertCmds (latestPrice : String → Option ℚ)
    (alerts : List AlertRule) (prev : List (String × ℚ)) :
    DbCmd.commit ∉ alertCmds latestPrice alerts prev := by
  intro h
  obtain ⟨i, hshape, -⟩ := alertCmds_shape latestPrice alerts prev DbCmd.commit h
  rcases hshape with h1 | ⟨s, h1⟩ <;> cases h1

/-- A commit-free trace leaves the stored state untouched, whatever is
already staged in the transaction. -/
theorem applyTrace_no_commit :
    ∀ (l : List DbCmd) (db : AlertDB) (staged : List DbCmd),
      DbCmd.commit ∉ l → applyTrace db staged l = db
  | [], _, _, _ => rfl
  | c :: rest, db, staged, h => by
      cases c with
      | commit => exact absurd (List.mem_cons_self _ _) h
      | updateStatus i s =>
          show applyTrace db (staged ++ [DbCmd.updateStatus i s]) rest = db
          exact applyTrace_no_commit rest db _ (fun hm => h (List.mem_cons_of_mem _ hm))
      | insertHistory i s =>
          show applyTrace db (staged ++ [DbCmd.insertHistory i s]) rest = db
          exact applyTrace_no_commit rest db _ (fun hm => h (List.mem_cons_of_mem _ hm))

/-- A commit-free batch followed by a single final commit applies exactly
the staged statements, in order. -/
theorem applyTrace_commit_last :
    ∀ (cmds : List DbCmd) (db : AlertDB) (staged : List DbCmd), DbCmd.commit ∉ cmds →
      applyTrace db staged (cmds ++ [DbCmd.commit]) =
        (staged ++ cmds).foldl applyWrite db
  | [], db, staged, _ => by
      simp [applyTrace]
  | c :: cs, db, staged, h => by
      cases c with
      | commit => exact absurd (List.mem_cons_self _ _) h
      | updateStatus i s =>
          show applyTrace db (staged ++ [DbCmd.updateStatus i s]) (cs ++ [DbCmd.commit]) = _
          rw [applyTrace_commit_last cs db _ (fun hm => h (List.mem_cons_of_mem _ hm))]
          simp
      | insertHistory i s =>
          show applyTrace db (staged ++ [DbCmd.insertHistory i s]) (cs ++ [DbCmd.commit]) = _
          rw [applyTrace_commit_last cs db _ (fun hm => h (List.mem_cons_of_mem _ hm))]
          simp

/-- Folding statements none of which touch `rid` keeps the rule with id
`rid` in place and leaves its slice of the history table unchanged. -/
theorem foldl_applyWrite_untouched (rid : ℕ) :
    ∀ (cmds : List DbCmd) (db : AlertDB), (∀ c ∈ cmds, ¬ cmdTouches c rid) →
      ((cmds.foldl applyWrite db).history.filter (fun h0 => h0.alert_id == rid) =
        db.history.filter (fun h0 => h0.alert_id == rid)) ∧
      (∀ r, r ∈ db.alerts → r.id = rid → r ∈ (cmds.foldl applyWrite db).alerts)
  | [], db, _ => ⟨rfl, fun r hr _ => hr⟩
  | c :: cs, db, h => by
      have hc := h c (List.mem_cons_self _ _)
      have ih := foldl_applyWrite_untouched rid cs (applyWrite db c)
        (fun x hx => h x (List.mem_cons_of_mem _ hx))
      rw [List.foldl_cons]
      refine ⟨?_, ?_⟩
      · rw [ih.1]
        cases c with
        | commit => rfl
        | updateStatus i s => rfl
        | insertHistory i s =>
            simp only [cmdTouches] at hc
            simp only [applyWrite]
            rw [List.filter_append]
            simp [hc]
      · intro r hr hid
        refine ih.2 r ?_ hid
        cases c with
        | commit => exact hr
        | insertHistory i s => exact hr
        | updateStatus i s =>
            simp only [cmdTouches] at hc
            have hne : ¬ r.id = i := by
              intro he
              exact hc (by rw [← he, hid])
            simp only [applyWrite]
            exact List.mem_map.2 ⟨r, hr, by rw [if_neg hne]⟩

/-- No rule in an all-inactive table matches the active query, so the
loop stages nothing. -/
theorem alertCmds_nil_of_no_active (latestPrice : String → Option ℚ) :
    ∀ (alerts : List AlertRule) (prev : List (String × ℚ)),
      (∀ r ∈ alerts, r.status ≠ "active") → alertCmds latestPrice alerts prev = []
  | [], _, _ => rfl
  | r :: rs, prev, h => by
      rw [alertCmds, if_neg (h r (List.mem_cons_self _ _))]
      exact alertCmds_nil_of_no_active latestPrice rs prev
        (fun x hx => h x (List.mem_cons_of_mem _ hx))

/-- C2: every rule is created `'active'`; an evaluation pass over a table
with no active rule is a no-op on the stored state; and in any pass over a
table with distinct ids, an already-triggered rule survives unchanged and
its slice of the alert-history table is untouched (only active rules are
ever written). -/
theorem C2_alert_lifecycle :
    (∀ (sym ty : String) (low high rl rh : Option ℚ) (tc : Option String)
        (pc rp : Option ℚ) (idv : ℕ),
      (create_alert sym ty low high rl rh tc pc rp idv).status = "active") ∧
    (∀ (latestPrice : String → Option ℚ) (db : AlertDB) (prev : List (String × ℚ)),
      (∀ r ∈ db.alerts, r.status ≠ "active") →
      monitorAlertsPass latestPrice db prev = db) ∧
    (∀ (latestPrice : String → Option ℚ) (db : AlertDB) (prev : List (String × ℚ))
        (r : AlertRule),
      (db.alerts.map (fun a => a.id)).Nodup → r ∈ db.alerts → r.status = "triggered" →
      r ∈ (monitorAlertsPass latestPrice db prev).alerts ∧
      (monitorAlertsPass latestPrice db prev).history.filter
          (fun h0 => h0.alert_id == r.id) =
        db.history.filter (fun h0 => h0.alert_id == r.id)) := by
  refine ⟨fun _ _ _ _ _ _ _ _ _ _ => rfl, ?_, ?_⟩
  · intro latestPrice db prev h
    unfold monitorAlertsPass monitorTrace
    rw [alertCmds_nil_of_no_active latestPrice db.alerts prev h]
    rw [applyTrace_commit_last [] db [] (by simp)]
    rfl
  · intro latestPrice db prev r hnodup hr hst
    have huntouched : ∀ c ∈ alertCmds latestPrice db.alerts prev, ¬ cmdTouches c r.id := by
      intro c hc htouch
      obtain ⟨i, hshape, hmem⟩ := alertCmds_shape latestPrice db.alerts prev c hc
      have hir : i = r.id := by
        rcases hshape with h1 | ⟨s, h1⟩ <;> subst h1 <;> exact htouch
      simp only [activeIds, List.mem_map, List.mem_filter] at hmem
      obtain ⟨a, ⟨ha, hact⟩, hid⟩ := hmem
      have : a = r := List.inj_on_of_nodup_map hnodup ha hr (hid.trans hir)
      subst this
      rw [hst] at hact
      simp at hact
    have hpass : monitorAlertsPass latestPrice db prev =
        (alertCmds latestPrice db.alerts prev).foldl applyWrite db := by
      unfold monitorAlertsPass monitorTrace
      rw [applyTrace_commit_last _ db []
        (commit_not_mem_alertCmds latestPrice db.alerts prev)]
      rfl
    rw [hpass]
    have hfold := foldl_applyWrite_untouched r.id
      (alertCmds latestPrice db.alerts prev) db huntouched
    exact ⟨hfold.2 r hr rfl, hfold.1⟩

/-- Witness for `C2_alert_lifecycle`: a pass over a table holding a single
already-triggered rule changes nothing. -/
theorem C2_alert_lifecycle_witness :
    monitorAlertsPass (fun _ => some 100)
      ⟨[⟨1, "NVDA", "high_low", some 90, some 110, none, none, none, none, none,
        "triggered"⟩], []⟩ [] =
      ⟨[⟨1, "NVDA", "high_low", some 90, some 110, none, none, none, none, none,
        "triggered"⟩], []⟩ :=
  C2_alert_lifecycle.2.1 (fun _ => some 100)
    ⟨[⟨1, "NVDA", "high_low", some 90, some 110, none, none, none, none, none,
      "triggered"⟩], []⟩ []
    (by intro r hr; simp at hr; subst hr; simp)

/-- C10: a `monitor_alerts` pass issues exactly one commit and it is the
final statement of the trace; under transactional semantics, cutting the
trace anywhere before its end (an exception raised during the pass) leaves
the stored alert state exactly as it was. -/
theorem C10_single_commit_atomicity (latestPrice : String → Option ℚ) (db : AlertDB)
    (prev : List (String × ℚ)) :
    ((monitorTrace latestPrice db prev).count DbCmd.commit = 1 ∧
     ∃ pre, monitorTrace latestPrice db prev = pre ++ [DbCmd.commit] ∧
       DbCmd.commit ∉ pre) ∧
    (∀ k, k < (monitorTrace latestPrice db prev).length →
      applyTrace db [] ((monitorTrace latestPrice db prev).take k) = db) := by
  have hnc := commit_not_mem_alertCmds latestPrice db.alerts prev
  constructor
  · constructor
    · unfold monitorTrace
      rw [List.count_append]
      rw [List.count_eq_zero.2 hnc]
      rfl
    · exact ⟨alertCmds latestPrice db.alerts prev, rfl, hnc⟩
  · intro k hk
    unfold monitorTrace at hk ⊢
    rw [List.length_append, List.length_singleton] at hk
    have hkle : k ≤ (alertCmds latestPrice db.alerts prev).length := by omega
    rw [List.take_append_of_le_length hkle]
    refine applyTrace_no_commit _ db [] ?_
    intro hmem
    exact hnc (List.take_subset k _ hmem)

/-- Witness for `C10_single_commit_atomicity`: cutting the trace before
the commit on a one-rule table that would trigger leaves the store
unchanged. -/
theorem C10_single_commit_atomicity_witness :
    applyTrace
      ⟨[⟨1, "NVDA", "high_low", some 90, some 110, none, none, none, none, none,
        "active"⟩], []⟩ []
      ((monitorTrace (fun _ => some 120)
        ⟨[⟨1, "NVDA", "high_low", some 90, some 110, none, none, none, none, none,
          "active"⟩], []⟩ []).take 0) =
      ⟨[⟨1, "NVDA", "high_low", some 90, some 110, none, none, none, none, none,
        "active"⟩], []⟩ :=
  (C10_single_commit_atomicity (fun _ => some 120)
    ⟨[⟨1, "NVDA", "high_low", some 90, some 110, none, none, none, none, none,
      "active"⟩], []⟩ []).2 0 (by simp [monitorTrace])

/-- Witness for `C5_price_change`: a cached previous price of 50 against a
latest price of 100. -/
theorem C5_price_change_witness :
    evalAlertRule ⟨3, "GOOGL", "price_change", none, none, none, none, none, none, none,
      "active"⟩ 100 (some 50) = true ↔
      1/100 ≤ |(100:ℚ) - (some (50:ℚ)).getD 100| / (some (50:ℚ)).getD 100 * 100 :=
  C5_price_change.1 ⟨3, "GOOGL", "price_change", none, none, none, none, none, none,
    none, "active"⟩ 100 (some 50) rfl (by norm_num)

/-- Appending inside a batch distributes over `take` past the prefix. -/
theorem take_append_len (l1 l2 : List (String × ℚ)) (i : ℕ) :
    (l1 ++ l2).take (l1.length + i) = l1 ++ l2.take i := by
  rw [List.take_append_eq_append_take]
  simp

/-- Extending a series by one price turns the last-4 buffer plus the new
price into the new last-4 buffer shape. -/
theorem buffer_step (L : List ℚ) (p : ℚ) :
    (L.drop (L.length - 4) ++ [p]).drop ((L.drop (L.length - 4) ++ [p]).length - 4) =
      (L ++ [p]).drop ((L ++ [p]).length - 4) := by
  have h1 : (L.drop (L.length - 4) ++ [p]).length - 4 ≤ (L.drop (L.length - 4)).length := by
    simp only [List.length_append, List.length_drop, List.length_singleton]
    omega
  have h2 : (L ++ [p]).length - 4 ≤ L.length := by
    simp only [List.length_append, List.length_singleton]
    omega
  rw [List.drop_append_of_le_length h1, List.drop_append_of_le_length h2, List.drop_drop]
  have h4 : (L.length - 4) + ((L.drop (L.length - 4) ++ [p]).length - 4) =
      (L ++ [p]).length - 4 := by
    simp only [List.length_append, List.length_drop, List.length_singleton]
    omega
  rw [h4]

/-- The last-4 buffer of a series followed by the current price is the
trailing 5-window of the extended series. -/
theorem window_of_buffer (L : List ℚ) (p : ℚ) :
    L.drop (L.length - 4) ++ [p] = (L ++ [p]).drop ((L ++ [p]).length - 5) := by
  have h1 : (L ++ [p]).length - 5 ≤ L.length := by
    simp only [List.length_append, List.length_singleton]
    omega
  rw [List.drop_append_of_le_length h1]
  have h2 : L.length - 4 = (L ++ [p]).length - 5 := by
    simp only [List.length_append, List.length_singleton]
    omega
  rw [h2]

/-- The code's `.std()`-then-`.fillna(0)` volatility coincides with the
spec's zero-normalized sample standard deviation on every window. -/
theorem codeVolatility_eq_spec (w : List ℚ) : codeVolatility w = specVolatility w := by
  unfold codeVolatility rollingStd specVolatility
  split <;> rfl

/-- Dropping another symbol's entries does not change a `find?` lookup. -/
theorem find_filter_ne (s s0 : String) (h : ¬ s = s0) :
    ∀ (bufs : List (String × List ℚ)),
      (bufs.filter (fun p => !(p.1 == s0))).find? (fun p => p.1 == s) =
        bufs.find? (fun p => p.1 == s)
  | [] => rfl
  | (a, b) :: t => by
      by_cases has : a = s
      · subst has
        have h2 : (a == s0) = false := by
          simp only [beq_eq_false_iff_ne, ne_eq]
          exact fun he => h (he ▸ rfl)
        rw [List.filter_cons_of_pos (by simp [h2])]
        rw [List.find?_cons_of_pos _ (by simp), List.find?_cons_of_pos _ (by simp)]
      · by_cases has0 : a = s0
        · subst has0
          rw [List.filter_cons_of_neg (by simp)]
          rw [List.find?_cons_of_neg _ (by simp [has])]
          exact find_filter_ne s a h t
        · rw [List.filter_cons_of_pos (by simp [has0])]
          rw [List.find?_cons_of_neg _ (by simp [has]),
            List.find?_cons_of_neg _ (by simp [has])]
          exact find_filter_ne s s0 h t

/-- Reading back the buffer just written for a symbol. -/
theorem bufLookup_set_same (bufs : List (String × List ℚ)) (s : String) (l : List ℚ) :
    bufLookup (bufSet bufs s l) s = l := by
  unfold bufLookup bufSet
  rw [List.find?_cons_of_pos _ (by simp)]
  rfl

/-- Writing one symbol's buffer leaves every other symbol's buffer as it
was. -/
theorem bufLookup_set_ne (bufs : List (String × List ℚ)) (s s0 : String) (l : List ℚ)
    (h : ¬ s = s0) : bufLookup (bufSet bufs s0 l) s = bufLookup bufs s := by
  unfold bufLookup bufSet
  rw [List.find?_cons_of_neg _ (by simp; exact fun he => h he.symm)]
  rw [find_filter_ne s s0 h]

/-- A row of the same symbol extends that symbol's series. -/
theorem histOf_append_same (l : List (String × ℚ)) (s : String) (p : ℚ) :
    histOf (l ++ [(s, p)]) s = histOf l s ++ [p] := by
  unfold histOf
  rw [List.filter_append]
  simp

/-- A row of a different symbol leaves a symbol's series unchanged. -/
theorem histOf_append_ne (l : List (String × ℚ)) (s s0 : String) (p : ℚ) (h : ¬ s = s0) :
    histOf (l ++ [(s0, p)]) s = histOf l s := by
  unfold histOf
  rw [List.filter_append]
  simp only [List.filter_cons, List.filter_nil]
  have h2 : ((s0, p).1 == s) = false := by simp; exact fun he => h he.symm
  simp [h2]

/-- The row-by-row annotation computed by `calculate_analytics` matches
the spec's per-symbol trailing-window mean and zero-normalized sample
standard deviation, for every row of the batch. -/
theorem annotateBatch_spec :
    ∀ (rest done : List (String × ℚ)) (bufs : List (String × List ℚ)),
      (∀ s, bufLookup bufs s = (histOf done s).drop ((histOf done s).length - 4)) →
      ∀ (j : ℕ) (s : String) (price : ℚ), rest[j]? = some (s, price) →
        (annotateBatch bufs rest)[j]? =
          some (s, price, listMean (specWindow (done ++ rest) (done.length + j) s),
            specVolatility (specWindow (done ++ rest) (done.length + j) s))
  | [], _, _, _, j, s, price, hj => by simp at hj
  | (s0, p0) :: rest', done, bufs, hbufs, 0, s, price, hj => by
      simp only [List.getElem?_cons_zero, Option.some.injEq, Prod.mk.injEq] at hj
      obtain ⟨hs, hp⟩ := hj
      subst hs; subst hp
      have hwin : specWindow (done ++ (s0, p0) :: rest') (done.length + 0) s0 =
          bufLookup bufs s0 ++ [p0] := by
        unfold specWindow
        have htake : (done ++ (s0, p0) :: rest').take (done.length + 0 + 1) =
            done ++ [(s0, p0)] := by
          rw [Nat.add_zero, take_append_len]
          simp
        rw [htake, histOf_append_same, hbufs s0, window_of_buffer]
      rw [hwin]
      simp only [annotateBatch, List.getElem?_cons_zero]
      rw [codeVolatility_eq_spec]
  | (s0, p0) :: rest', done, bufs, hbufs, j + 1, s, price, hj => by
      simp only [List.getElem?_cons_succ] at hj
      have hbufs' : ∀ s1, bufLookup (bufSet bufs s0
          ((bufLookup bufs s0 ++ [p0]).drop ((bufLookup bufs s0 ++ [p0]).length - 4))) s1 =
          (histOf (done ++ [(s0, p0)]) s1).drop
            ((histOf (done ++ [(s0, p0)]) s1).length - 4) := by
        intro s1
        by_cases hs1 : s1 = s0
        · subst hs1
          rw [bufLookup_set_same, hbufs s1, histOf_append_same]
          exact buffer_step _ _
        · rw [bufLookup_set_ne _ _ _ _ hs1, hbufs s1, histOf_append_ne _ _ _ _ hs1]
      have ih := annotateBatch_spec rest' (done ++ [(s0, p0)]) _ hbufs' j s price hj
      have he1 : (done ++ [(s0, p0)]) ++ rest' = done ++ (s0, p0) :: rest' := by
        rw [← List.append_cons]
      have he2 : (done ++ [(s0, p0)]).length + j = done.length + (j + 1) := by
        simp only [List.length_append, List.length_singleton]
        omega
      rw [he1, he2] at ih
      simp only [annotateBatch, List.getElem?_cons_succ]
      exact ih

/-- C6: each output row of `calculate_analytics` carries the arithmetic
mean and the sample standard deviation (0 below two samples, no NaN) of
the trailing window of the most recent at-most-5 same-symbol observations
ending at that row; a window of five identical prices yields
moving_avg = p and volatility = 0. -/
theorem C6_analytics :
    (∀ (batch : List (String × ℚ)) (j : ℕ) (s : String) (price : ℚ),
      batch[j]? = some (s, price) →
      (calculate_analytics batch)[j]? =
        some (s, price, listMean (specWindow batch j s),
          specVolatility (specWindow batch j s))) ∧
    (∀ (s : String) (p : ℚ),
      specWindow [(s, p), (s, p), (s, p), (s, p), (s, p)] 4 s = [p, p, p, p, p] ∧
      listMean [p, p, p, p, p] = p ∧
      specVolatility [p, p, p, p, p] = 0) := by
  constructor
  · intro batch j s price hj
    have h := annotateBatch_spec batch [] [] (fun s1 => rfl) j s price hj
    simpa using h
  · intro s p
    have hw : specWindow [(s, p), (s, p), (s, p), (s, p), (s, p)] 4 s = [p, p, p, p, p] := by
      unfold specWindow histOf
      simp
    have hm : listMean [p, p, p, p, p] = p := by
      unfold listMean
      simp only [List.sum_cons, List.sum_nil, List.length_cons, List.length_nil]
      norm_num
      ring_nf
    refine ⟨hw, hm, ?_⟩
    have hv : sampleVar [p, p, p, p, p] = 0 := by
      unfold sampleVar
      rw [if_neg (by simp)]
      rw [hm]
      simp
    unfold specVolatility
    rw [if_neg (by simp), hv]
    simp

/-- Witness for `C6_analytics` on a one-row batch. -/
theorem C6_analytics_witness :
    (calculate_analytics [("AAPL", (3:ℚ))])[0]? =
      some ("AAPL", 3, listMean (specWindow [("AAPL", (3:ℚ))] 0 "AAPL"),
        specVolatility (specWindow [("AAPL", (3:ℚ))] 0 "AAPL")) :=
  C6_analytics.1 [("AAPL", 3)] 0 "AAPL" 3 (by simp)

end StockPulse
